import Mathlib

/-!
Verification of the jray ray tracer (src/: main.rs, vec3.rs, sphere.rs,
aa.rs, color.rs).

Modelling conventions:
* Rust `f64` arithmetic is idealised as exact real arithmetic (`ℝ`);
  `sqrt`, `cos`, `sin` become `Real.sqrt`, `Real.cos`, `Real.sin`, and
  `powf` becomes `Real.rpow`.  Computations that never leave the
  rationals (the anti-aliasing grid of aa.rs) are embedded over `ℚ` so
  they stay decidable.
* The final byte conversion of color.rs manipulates possibly non-finite
  floating point values, so for it alone we use an explicit value type
  `F64` with NaN and the two infinities, following the documented Rust
  semantics of `f64::clamp` (NaN is returned unchanged because both
  comparisons are false) and of the saturating `as u8` cast (NaN casts
  to 0, values are clamped into `[0, 255]` and truncated toward zero).
* Rust `Option` becomes `Option`; a `panic!`/failed `unwrap` is
  modelled as `Option.none` of the whole computation.
-/

namespace JRay

/-! ### Floating-point value model for the final byte conversion
(color.rs, `Color::to_rgb`). -/

/-- A double precision value as seen by `Color::to_rgb`: NaN, one of the
two infinities, or a finite value (idealised as a rational). -/
inductive F64 where
  | nan : F64
  | pinf : F64
  | ninf : F64
  | fin (x : ℚ) : F64
deriving DecidableEq

/-- Multiplication by the constant `256.0` (the `256.0 * self.i` step of
`to_rgb`): NaN and infinities propagate, finite values scale exactly. -/
def F64.mul256 : F64 → F64
  | .nan => .nan
  | .pinf => .pinf
  | .ninf => .ninf
  | .fin x => .fin (256 * x)

/-- Rust `f64::clamp(lo, hi)` with finite bounds: `if self < min { min }
else if self > max { max } else { self }`.  Both comparisons are false
for NaN, so NaN is returned unchanged; `+inf` clamps to `hi`, `-inf` to
`lo`. -/
def F64.clampQ (lo hi : ℚ) : F64 → F64
  | .nan => .nan
  | .pinf => .fin hi
  | .ninf => .fin lo
  | .fin x => if x < lo then .fin lo else if hi < x then .fin hi else .fin x

/-- Rust's saturating `as u8` cast: NaN casts to 0, values below 0 to 0,
values above 255 to 255, and everything else truncates toward zero. -/
def F64.asU8 : F64 → ℕ
  | .nan => 0
  | .pinf => 255
  | .ninf => 0
  | .fin x => if x < 0 then 0 else if 255 < x then 255 else ⌊x⌋.toNat

/-- One channel of `Color::to_rgb`:
`(256.0 * channel).clamp(0.0, 255.0) as u8`. -/
def toRgbChannel (c : F64) : ℕ :=
  ((c.mul256).clampQ 0 255).asU8

/-! ### Anti-aliasing grid (aa.rs, `AntiAliasing::create`).

`create` takes the grid size as a `u8`, asserts it is nonzero, and
converts it to `i8` with `try_into().unwrap()`.  Sizes 0 and 128..=255
therefore panic, modelled by returning `none`. -/

/-- The snapping pass of `AntiAliasing::create`: components of magnitude
below `0.000000001` are replaced by exactly `0.0`. -/
def snapSmall (v : ℚ) : ℚ :=
  if |v| < 1 / 1000000000 then 0 else v

/-- The raw offset grid of `AntiAliasing::create` before snapping:
`delta = 1/n`, `start_offset = 0.5*(1 - delta)` (or `0.0` for `n = 1`),
and one entry `(x*delta - start_offset, y*delta - start_offset)` for each
`x` in `0..n` (outer loop) and `y` in `0..n` (inner loop). -/
def aaOffsetsRaw (n : ℕ) : List (ℚ × ℚ) :=
  let delta : ℚ := 1 / n
  let startOffset : ℚ := if n = 1 then 0 else (1 / 2) * (1 - delta)
  (List.range n).flatMap fun x : ℕ =>
    (List.range n).map fun y : ℕ =>
      ((x : ℚ) * delta - startOffset, (y : ℚ) * delta - startOffset)

/-- `AntiAliasing::create`: panics (`none`) for `n = 0` (the
`assert_ne!`) and for `n > 127` (the `u8 → i8` `try_into().unwrap()`);
otherwise the raw grid with both components snapped. -/
def aaCreate (n : ℕ) : Option (List (ℚ × ℚ)) :=
  if n = 0 then none
  else if 127 < n then none
  else some ((aaOffsetsRaw n).map fun p => (snapSmall p.1, snapSmall p.2))

/-- The byte produced for one finite channel value, spelled the way the
spec describes it: clamp `256·x` into `[0, 255]`, then truncate. -/
def specByte (x : ℚ) : ℕ :=
  ⌊min 255 (max 0 (256 * x))⌋.toNat

/-- Claim C10, as stated, is false: a `+inf` channel value is not clamped
to 0 at the byte-conversion step — `f64::clamp(0.0, 255.0)` sends it to
`255.0` and the `as u8` cast then yields `255`, not `0`. -/
theorem toRgbChannel_pinf_not_zero : toRgbChannel F64.pinf = 255 ∧ (255 : ℕ) ≠ 0 := by
  constructor
  · norm_num [toRgbChannel, F64.mul256, F64.clampQ, F64.asU8]
    rfl
  · decide

/-- Claim C10 (amended): at the final byte-conversion step every finite
channel value `x` becomes `clamp(0, 255, 256·x)` truncated to a byte; a
NaN channel is detected by the saturating cast and becomes 0 (not
propagated); `+inf` becomes 255 and `-inf` becomes 0; in every case the
output is a valid byte (≤ 255), so no non-finite value reaches the
image. -/
theorem toRgbChannel_spec :
    toRgbChannel F64.nan = 0 ∧
    toRgbChannel F64.pinf = 255 ∧
    toRgbChannel F64.ninf = 0 ∧
    (∀ x : ℚ, toRgbChannel (F64.fin x) = specByte x) ∧
    (∀ c : F64, toRgbChannel c ≤ 255) := by
  have hfin : ∀ x : ℚ, toRgbChannel (F64.fin x) = specByte x := by
    intro x
    simp only [toRgbChannel, F64.mul256, F64.clampQ, specByte]
    rcases lt_or_le (256 * x) 0 with h0 | h0
    · rw [if_pos h0]
      rw [max_eq_left h0.le, min_eq_right (by norm_num : (0:ℚ) ≤ 255)]
      simp [F64.asU8]
    · rw [if_neg (not_lt.mpr h0)]
      rcases lt_or_le (255 : ℚ) (256 * x) with h1 | h1
      · rw [if_pos h1]
        rw [max_eq_right h0, min_eq_left h1.le]
        simp [F64.asU8]
      · rw [if_neg (not_lt.mpr h1)]
        rw [max_eq_right h0, min_eq_right h1]
        simp only [F64.asU8]
        rw [if_neg (not_lt.mpr h0), if_neg (not_lt.mpr h1)]
  refine ⟨rfl, ?_, rfl, hfin, ?_⟩
  · norm_num [toRgbChannel, F64.mul256, F64.clampQ, F64.asU8]
    rfl
  · intro c
    cases c with
    | nan => exact Nat.zero_le _
    | pinf =>
      norm_num [toRgbChannel, F64.mul256, F64.clampQ, F64.asU8]
    | ninf =>
      norm_num [toRgbChannel, F64.mul256, F64.clampQ, F64.asU8]
    | fin x =>
      rw [hfin x]
      simp only [specByte]
      have hle : ⌊min 255 (max 0 (256 * x))⌋ ≤ ⌊(255 : ℚ)⌋ :=
        Int.floor_le_floor (min_le_left _ _)
      have h255 : ⌊(255 : ℚ)⌋ = 255 := by norm_num
      omega

/-! ### The anti-aliasing grid as the spec describes it: an `n × n`
regular grid with spacing `1/n`, centred at zero. -/

/-- Offset of grid index `x` in an `n`-point row, written in closed,
centred form: `(2x - (n-1)) / (2n)`. -/
def aaValue (n x : ℕ) : ℚ :=
  (2 * (x : ℚ) - ((n : ℚ) - 1)) / (2 * (n : ℚ))

/-- The centred regular grid the spec describes (x-major order, matching
the loop order of `AntiAliasing::create`). -/
def aaGrid (n : ℕ) : List (ℚ × ℚ) :=
  (List.range n).flatMap fun x =>
    (List.range n).map fun y => (aaValue n x, aaValue n y)

/-- Sum of an affine function over `List.range n` (Gauss). -/
lemma sum_map_affine (a b : ℚ) :
    ∀ n : ℕ, ((List.range n).map fun x : ℕ => a * x + b).sum = a * (n * (n - 1) / 2) + n * b := by
  intro n
  induction n with
  | zero => simp
  | succ n ih =>
    rw [List.range_succ, List.map_append, List.sum_append, ih]
    simp only [List.map_cons, List.map_nil, List.sum_cons, List.sum_nil]
    push_cast
    ring

/-- The row offsets of the anti-aliasing grid sum to zero. -/
lemma sum_aaValue (n : ℕ) (h : 1 ≤ n) :
    ((List.range n).map fun x => aaValue n x).sum = 0 := by
  have hn : (n : ℚ) ≠ 0 :=
    Nat.cast_ne_zero.mpr (Nat.one_le_iff_ne_zero.mp h)
  have hval : ∀ x : ℕ, aaValue n x = (1 / n) * x + (-(((n : ℚ) - 1) / (2 * n))) := by
    intro x
    unfold aaValue
    field_simp
    ring
  simp only [hval]
  rw [sum_map_affine]
  field_simp
  ring

/-- Summing the first components of a rectangular pair grid counts each
row value once per column. -/
lemma sum_fst_pairGrid (l : List ℕ) (m : ℕ) (f g : ℕ → ℚ) :
    ((l.flatMap fun x => (List.range m).map fun y => (f x, g y)).map Prod.fst).sum
      = (m : ℚ) * (l.map f).sum := by
  induction l with
  | nil => simp
  | cons a l ih =>
    simp only [List.flatMap_cons, List.map_append, List.sum_append, ih, List.map_map]
    have : ((List.range m).map (Prod.fst ∘ fun y => (f a, g y))).sum = (m : ℚ) * f a := by
      simp [Function.comp_def, List.map_const']
    rw [this, List.map_cons, List.sum_cons]
    ring

/-- Summing the second components of a rectangular pair grid sums the
column values once per row. -/
lemma sum_snd_pairGrid (l : List ℕ) (m : ℕ) (f g : ℕ → ℚ) :
    ((l.flatMap fun x => (List.range m).map fun y => (f x, g y)).map Prod.snd).sum
      = (l.length : ℚ) * ((List.range m).map g).sum := by
  induction l with
  | nil => simp
  | cons a l ih =>
    simp only [List.flatMap_cons, List.map_append, List.sum_append, ih, List.map_map]
    have : ((List.range m).map (Prod.snd ∘ fun y => (f a, g y))).sum
        = ((List.range m).map g).sum := by
      simp [Function.comp_def]
    rw [this, List.length_cons]
    push_cast
    ring

/-- For grid sizes up to 127 the snapping pass of `AntiAliasing::create`
is the identity: a nonzero grid offset has magnitude at least `1/(2n)`,
far above the `1e-9` snapping threshold. -/
lemma snapSmall_aaValue (n x : ℕ) (h1 : 1 ≤ n) (h2 : n ≤ 127) :
    snapSmall (aaValue n x) = aaValue n x := by
  have hn : (0 : ℚ) < n := by
    have : 0 < n := h1
    exact_mod_cast this
  have hcast : aaValue n x = ((2 * x - ((n : ℤ) - 1) : ℤ) : ℚ) / (2 * n) := by
    unfold aaValue
    push_cast
    ring_nf
  rcases eq_or_ne (2 * (x : ℤ) - ((n : ℤ) - 1)) 0 with h0 | h0
  · have : aaValue n x = 0 := by
      rw [hcast, h0]
      simp
    rw [this]
    unfold snapSmall
    simp
  · have h1le : (1 : ℚ) ≤ |((2 * x - ((n : ℤ) - 1) : ℤ) : ℚ)| := by
      rw [← Int.cast_abs]
      exact_mod_cast Int.one_le_abs h0
    have hlb : 1 / (2 * (n : ℚ)) ≤ |aaValue n x| := by
      rw [hcast, abs_div, abs_of_pos (by positivity : (0:ℚ) < 2 * n)]
      gcongr
    have hth : (1 : ℚ) / 1000000000 < 1 / (2 * (n : ℚ)) := by
      rw [div_lt_div_iff₀ (by norm_num) (by positivity)]
      have : (n : ℚ) ≤ 127 := by exact_mod_cast h2
      linarith
    unfold snapSmall
    rw [if_neg (not_lt.mpr (le_of_lt (lt_of_lt_of_le hth hlb)))]

/-- All properties claim C8 (amended) asserts of the grid for size `n`:
`create` succeeds and returns exactly the centred regular grid, with
`n²` entries, zero mean in both coordinates, spacing `1/n`, and the
single offset `(0,0)` for `n = 1`. -/
def AAGridSpec (n : ℕ) : Prop :=
  aaCreate n = some (aaGrid n) ∧
  (aaGrid n).length = n * n ∧
  ((aaGrid n).map Prod.fst).sum = 0 ∧
  ((aaGrid n).map Prod.snd).sum = 0 ∧
  (∀ x : ℕ, aaValue n (x + 1) - aaValue n x = 1 / n) ∧
  (n = 1 → aaGrid 1 = [((0 : ℚ), (0 : ℚ))])

/-- The raw offsets of `AntiAliasing::create` are exactly the centred
grid values, for every nonzero grid size. -/
lemma aaOffsetsRaw_eq_grid_value (n x : ℕ) (h0 : n ≠ 0) :
    (x : ℚ) * (1 / (n : ℚ)) - (if n = 1 then (0 : ℚ) else (1 / 2) * (1 - 1 / (n : ℚ)))
      = aaValue n x := by
  unfold aaValue
  rcases eq_or_ne n 1 with h1 | h1
  · subst h1
    norm_num
  · rw [if_neg h1]
    have hn : (n : ℚ) ≠ 0 := Nat.cast_ne_zero.mpr h0
    field_simp
    ring

/-- Claim C8, as stated, is false for grid sizes above 127: the
`u8 → i8` conversion inside `AntiAliasing::create` panics, so no offset
set (let alone one of `n²` elements) is produced for `n = 128`. -/
theorem aaCreate_128_panics : aaCreate 128 = none := by
  norm_num [aaCreate]

/-- Claim C8 (amended): for grid sizes `1 ≤ n ≤ 127` (sizes 128..=255
make the `i8` conversion panic), `AntiAliasing::create` returns exactly
the `n × n` regular grid with spacing `1/n` centred at zero — `n²`
offsets whose x- and y-components each sum (hence average) to zero, with
the sub-threshold snapping a no-op, and `[(0,0)]` for `n = 1`. -/
theorem aaCreate_grid (n : ℕ) (h1 : 1 ≤ n) (h2 : n ≤ 127) : AAGridSpec n := by
  have hn0 : n ≠ 0 := Nat.one_le_iff_ne_zero.mp h1
  have hnq : (n : ℚ) ≠ 0 := Nat.cast_ne_zero.mpr hn0
  have hnpos : (0 : ℚ) < (n : ℚ) := by
    exact_mod_cast Nat.pos_of_ne_zero hn0
  have hval := fun x => aaOffsetsRaw_eq_grid_value n x hn0
  have hsnap := fun x => snapSmall_aaValue n x h1 h2
  have hrows : aaOffsetsRaw n = aaGrid n := by
    simp only [aaOffsetsRaw, aaGrid]
    refine List.flatMap_congr fun x _ => ?_
    refine List.map_congr_left fun y _ => ?_
    rw [hval x, hval y]
  have hsnapmap : (aaGrid n).map (fun p => (snapSmall p.1, snapSmall p.2)) = aaGrid n := by
    unfold aaGrid
    rw [List.map_flatMap]
    refine List.flatMap_congr fun x _ => ?_
    rw [List.map_map]
    refine List.map_congr_left fun y _ => ?_
    simp only [Function.comp_apply]
    rw [hsnap x, hsnap y]
  have hcreate : aaCreate n = some (aaGrid n) := by
    unfold aaCreate
    rw [if_neg hn0, if_neg (not_lt.mpr h2), hrows, hsnapmap]
  refine ⟨hcreate, ?_, ?_, ?_, ?_, ?_⟩
  · unfold aaGrid
    rw [List.length_flatMap]
    simp [Function.comp_def]
  · unfold aaGrid
    rw [sum_fst_pairGrid, sum_aaValue n h1, mul_zero]
  · unfold aaGrid
    rw [sum_snd_pairGrid, sum_aaValue n h1, mul_zero]
  · intro x
    unfold aaValue
    rw [div_sub_div_same]
    have hnum : 2 * ((x + 1 : ℕ) : ℚ) - ((n : ℚ) - 1) - (2 * (x : ℚ) - ((n : ℚ) - 1)) = 2 := by
      push_cast
      ring
    rw [hnum]
    rw [div_eq_div_iff (mul_ne_zero two_ne_zero hnq) hnq]
    ring
  · intro h
    subst h
    have hr : List.range 1 = [0] := rfl
    norm_num [aaGrid, aaValue, hr]

/-- Witness for `aaCreate_grid` at the concrete grid size 2. -/
theorem aaCreate_grid_witness : 1 ≤ 2 ∧ 2 ≤ 127 ∧ AAGridSpec 2 :=
  ⟨by norm_num, by norm_num, aaCreate_grid 2 (by norm_num) (by norm_num)⟩

/-! ### Vector algebra (vec3.rs), over exact reals. -/

/-- A 3-vector (vec3.rs `Vec3`); the source's `Point` and `Direction`
wrappers carry no extra data and all their arithmetic is componentwise,
so a single vector type stands for all three. -/
@[ext]
structure Vec3 where
  x : ℝ
  y : ℝ
  z : ℝ

instance : Add Vec3 :=
  ⟨fun a b => ⟨a.x + b.x, a.y + b.y, a.z + b.z⟩⟩

instance : Sub Vec3 :=
  ⟨fun a b => ⟨a.x - b.x, a.y - b.y, a.z - b.z⟩⟩

instance : SMul ℝ Vec3 :=
  ⟨fun k v => ⟨k * v.x, k * v.y, k * v.z⟩⟩

/-- `Direction::dot`. -/
def Vec3.dot (a b : Vec3) : ℝ :=
  a.x * b.x + a.y * b.y + a.z * b.z

/-- `Direction::cross`. -/
def Vec3.cross (a b : Vec3) : Vec3 :=
  ⟨a.y * b.z - a.z * b.y, a.z * b.x - a.x * b.z, a.x * b.y - a.y * b.x⟩

/-- `Vec3::magnitude`: `sqrt(x² + y² + z²)`. -/
noncomputable def Vec3.magnitude (v : Vec3) : ℝ :=
  Real.sqrt (v.x * v.x + v.y * v.y + v.z * v.z)

/-- `Vec3::normalized` / `Direction::normalized`: divide each component
by the magnitude. -/
noncomputable def Vec3.normalized (v : Vec3) : Vec3 :=
  ⟨v.x / v.magnitude, v.y / v.magnitude, v.z / v.magnitude⟩

/-- `Direction::reflect`: `self − 2·(self·normal)·normal`. -/
def Vec3.reflect (v normal : Vec3) : Vec3 :=
  v - (2 * v.dot normal) • normal

/-- A ray (vec3.rs `Ray`): origin and direction. -/
structure Ray where
  origin : Vec3
  dir : Vec3

/-! ### Colors (color.rs), over exact reals. -/

/-- A color (color.rs `Color`): three linear channels. -/
@[ext]
structure Color where
  r : ℝ
  g : ℝ
  b : ℝ

instance : Add Color :=
  ⟨fun a b => ⟨a.r + b.r, a.g + b.g, a.b + b.b⟩⟩

/-- Scalar scaling of a color (`Mul<Color> for f64`). -/
instance : SMul ℝ Color :=
  ⟨fun k c => ⟨k * c.r, k * c.g, k * c.b⟩⟩

/-- Componentwise color product (`Mul<Color> for Color`). -/
instance : Mul Color :=
  ⟨fun a b => ⟨a.r * b.r, a.g * b.g, a.b * b.b⟩⟩

/-- Color equality (`PartialEq` on color.rs `Color`) is classically
decidable, as needed by the `reflected_color != BLACK` test. -/
noncomputable instance : DecidableEq Color :=
  fun _ _ => Classical.dec _

def BLACK : Color := ⟨0, 0, 0⟩

def WHITE : Color := ⟨1, 1, 1⟩

/-! ### Scene data model (main.rs). -/

/-- main.rs `Material`. -/
structure Material where
  diffuseColor : Color
  specularColor : Color
  shininess : ℝ
  reflectivity : ℝ

/-- main.rs `Light`. -/
structure Light where
  point : Vec3
  color : Color
  radius : ℝ
  intensity : ℝ

/-- main.rs `Intersection`. -/
structure Intersection where
  distance : ℝ
  point : Vec3
  surfaceNormal : Vec3

/-- main.rs `Shape`: the closed variant set. -/
inductive Shape where
  | sphere (center : Vec3) (radius : ℝ) : Shape
  | plane (point : Vec3) (normal : Vec3) : Shape

/-- main.rs `Object`. -/
structure Object where
  material : Material
  shape : Shape

/-- main.rs `Camera`. -/
structure Camera where
  ray : Ray
  up : Vec3
  wFovDegrees : ℝ

/-- main.rs `Scene`. -/
structure Scene where
  camera : Camera
  imgx : ℕ
  imgy : ℕ
  objects : List Object
  lights : List Light

/-! ### Geometric intersection (sphere.rs and the plane arm of
main.rs `Shape::find_intersection`). -/

/-- The root selection of sphere.rs `find_intersection` (`a = 1.0`):
negative discriminant means no hit; a double root `b/(-2a)` is accepted
only when non-negative; with two roots, negative ones are discarded and
the smaller non-negative root is returned. -/
noncomputable def sphereRoot (b c : ℝ) : Option ℝ :=
  let a : ℝ := 1
  let disc := b * b - 4 * a * c
  if disc < 0 then none
  else if disc = 0 then
    let t := b / (-2 * a)
    if 0 ≤ t then some t else none
  else
    let t0 := (Real.sqrt disc - b) / (2 * a)
    let t1 := (Real.sqrt disc + b) / (-2 * a)
    if t0 < 0 then
      if t1 < 0 then none else some t1
    else
      if t1 < 0 then some t0 else some (min t0 t1)

/-- sphere.rs `find_intersection`, with `O, D` the ray origin/direction,
`b = 2·D·(O−C)`, `c = (O−C)·(O−C) − R²`; the hit point is `O + D·t` and
the normal is `normalize(hit − C)`. -/
noncomputable def sphereFindIntersection (center : Vec3) (radius : ℝ) (r : Ray) :
    Option Intersection :=
  let O := r.origin
  let D := r.dir
  let OminusC := O - center
  let b := 2 * D.dot OminusC
  let c := OminusC.dot OminusC - radius * radius
  (sphereRoot b c).map fun t =>
    let P := O + t • D
    let normal := P - center
    { distance := t, point := P, surfaceNormal := normal.normalized }

/-- The `Shape::Plane` arm of main.rs `Shape::find_intersection`:
parallel rays (`l·n = 0`) miss; `t = (p0 − l0)·n / (l·n)` is rejected
when `t ≤ 0`; the normal is the plane's fixed normal, never flipped. -/
noncomputable def planeFindIntersection (point normal : Vec3) (r : Ray) :
    Option Intersection :=
  let l0 := r.origin
  let l := r.dir
  let lDotN := l.dot normal
  if lDotN = 0 then none
  else
    let distance := (point - l0).dot normal / lDotN
    if distance ≤ 0 then none
    else some { distance := distance, point := l0 + distance • l, surfaceNormal := normal }

/-- main.rs `Shape::find_intersection`: exhaustive match over the closed
shape set. -/
noncomputable def Shape.findIntersection : Shape → Ray → Option Intersection
  | .plane point normal, r => planeFindIntersection point normal r
  | .sphere center radius, r => sphereFindIntersection center radius r

/-! ### Scene queries and shading (main.rs `impl Scene`). -/

/-- One step of the nearest-hit scan: keep the incumbent unless the new
object yields a strictly smaller distance (Rust `Iterator::min_by`
returns the first of equally minimal elements). -/
noncomputable def closestStep (r : Ray) (best : Option (Object × Intersection)) (o : Object) :
    Option (Object × Intersection) :=
  match o.shape.findIntersection r with
  | none => best
  | some i =>
    match best with
    | none => some (o, i)
    | some (o', i') => if i.distance < i'.distance then some (o, i) else some (o', i')

/-- main.rs `Scene::closest_intersection`: linear scan over the object
list keeping the hit of minimal distance, earliest object winning ties.
Stated over the object list (the only scene field it reads). -/
noncomputable def closestIntersection (objects : List Object) (r : Ray) :
    Option (Object × Intersection) :=
  objects.foldl (closestStep r) none

/-- main.rs `Scene::light_positions`: the center point is always pushed
first; for a positive light radius, `count` further points are pushed on
a deterministic spiral of `revolutions_in_spiral = 2` turns, built from
the fixed global up `(0,0,1)` and `right = normalize(dir × up)`. -/
noncomputable def Scene.lightPositions (centerRay : Ray) (lightRadius : ℝ) (count : ℕ) :
    List Vec3 :=
  [centerRay.origin] ++
    (if 0 < lightRadius then
      (List.range count).map fun i : ℕ =>
        let up : Vec3 := ⟨0, 0, 1⟩
        let right := (centerRay.dir.cross up).normalized
        let scaler := (i : ℝ) / (count : ℝ)
        let theta := 2 * scaler * 2 * Real.pi
        let spiralRadius := scaler * lightRadius
        let upScaled := spiralRadius • up
        let rightScaled := spiralRadius • right
        centerRay.origin + Real.cos theta • rightScaled + Real.sin theta • upScaled
    else [])

/-- The per-frame constant `light_points = 1` of `Scene::render_ray`. -/
def lightPointsCount : ℕ := 1

/-- The shadow test for one light sample inside `Scene::render_ray`'s
sample loop: trace from the offset surface point toward the sample; the
sample counts as shaded unless the nearest hit lies strictly beyond the
sample's distance (measured from the unoffset hit point). -/
noncomputable def sampleBlocked (objects : List Object) (hitPoint slightlyOff samplePos : Vec3) :
    Bool :=
  let lightDir := samplePos - hitPoint
  let lightDistance := lightDir.magnitude
  let rayToLight : Ray := ⟨slightlyOff, lightDir.normalized⟩
  match closestIntersection objects rayToLight with
  | none => false
  | some (_, shadowI) => if shadowI.distance > lightDistance then false else true

/-- Rust `f64::clamp`. -/
noncomputable def fclamp (x lo hi : ℝ) : ℝ :=
  if x < lo then lo else if hi < x then hi else x

/-- The attenuation factor of `Scene::render_ray`, exactly as written in
the source: `unblocked * intensity / distance * distance`. -/
noncomputable def apparentBrightness (unblocked intensity lightDistance : ℝ) : ℝ :=
  unblocked * intensity / lightDistance * lightDistance

/-- The body of `Scene::render_ray`'s per-light loop: soft-shadow
sampling over `light_positions`, early `continue` when every sample is
shaded, then the diffuse and specular Phong terms scaled by the light
color and the apparent brightness. -/
noncomputable def lightContribution (objects : List Object) (material : Material)
    (i : Intersection) (rayDir : Vec3) (slightlyOff : Vec3) (l : Light) : Color :=
  let centerRay : Ray := ⟨l.point, i.point - l.point⟩
  let positions := Scene.lightPositions centerRay l.radius lightPointsCount
  let shaded := (positions.filter fun p => sampleBlocked objects i.point slightlyOff p).length
  let total := positions.length
  if shaded = total then BLACK
  else
    let unblocked := 1 - (shaded : ℝ) / (total : ℝ)
    let lightDir := i.point - l.point
    let lightDistance := lightDir.magnitude
    let brightness := apparentBrightness unblocked l.intensity lightDistance
    let lightDirN := lightDir.normalized
    let dirToLight := (-1 : ℝ) • lightDirN
    let diffuse := fclamp (i.surfaceNormal.dot dirToLight) 0 1
    let lightReflect := (-1 : ℝ) • (lightDirN.reflect i.surfaceNormal)
    let specular := Real.rpow (fclamp (lightReflect.dot rayDir) 0 1) material.shininess
    (brightness • l.color) *
      (diffuse • material.diffuseColor + specular • material.specularColor)

/-- main.rs `Scene::render_ray`: returns black once the recursion budget
hits zero; otherwise decrements the budget, shades the nearest hit
(ambient constant `Color(0,0,0)`, then each light's contribution), and
for a reflective material adds `reflectivity · reflected_color` when the
recursively rendered reflection color is not black. -/
noncomputable def Scene.renderRay (s : Scene) : Ray → ℕ → Color
  | _, 0 => BLACK
  | ray, limit + 1 =>
    match closestIntersection s.objects ray with
    | none => BLACK
    | some (obj, i) =>
      let ambient := BLACK + Color.mk 0 0 0
      let slightlyOff := i.point + (1 / 1000 : ℝ) • i.surfaceNormal
      let afterLights := s.lights.foldl
        (fun c l => c + lightContribution s.objects obj.material i ray.dir slightlyOff l)
        ambient
      if 0 < obj.material.reflectivity then
        let reflectedDir := (ray.dir.reflect i.surfaceNormal).normalized
        let reflectedRay : Ray := ⟨slightlyOff, reflectedDir⟩
        let reflectedColor := s.renderRay reflectedRay limit
        if reflectedColor ≠ BLACK then
          afterLights + obj.material.reflectivity • reflectedColor
        else afterLights
      else afterLights

/-- The shading function with the reflection step removed entirely
(spec side of claim C1): identical to `Scene::render_ray` up to and
including the per-light loop, with no reflection term and no budget. -/
noncomputable def Scene.renderRayNoReflect (s : Scene) (ray : Ray) : Color :=
  match closestIntersection s.objects ray with
  | none => BLACK
  | some (obj, i) =>
    let ambient := BLACK + Color.mk 0 0 0
    let slightlyOff := i.point + (1 / 1000 : ℝ) • i.surfaceNormal
    s.lights.foldl
      (fun c l => c + lightContribution s.objects obj.material i ray.dir slightlyOff l)
      ambient

/-- The number of nested reflection bounces `Scene::render_ray` actually
performs for a given ray and budget: one bounce is counted exactly when
the budget is positive, the ray hits, and the hit material is
reflective — the situation in which the source recurses. -/
noncomputable def Scene.reflectionBounces (s : Scene) : Ray → ℕ → ℕ
  | _, 0 => 0
  | ray, limit + 1 =>
    match closestIntersection s.objects ray with
    | none => 0
    | some (obj, i) =>
      if 0 < obj.material.reflectivity then
        let slightlyOff := i.point + (1 / 1000 : ℝ) • i.surfaceNormal
        let reflectedDir := (ray.dir.reflect i.surfaceNormal).normalized
        1 + s.reflectionBounces ⟨slightlyOff, reflectedDir⟩ limit
      else 0

/-- The primary-ray construction of main.rs `Scene::render` for pixel
`(px, py)` and one AA offset: the linear FOV mapping
`radians_x = (x − centerX)/width · hFov`,
`radians_y = (centerY − y)/height · vFov`, direction
`normalize(forward + radians_x·right + radians_y·up)` with
`right = forward × up` (not normalized in the source), cast from the
camera origin. -/
noncomputable def Scene.pixelRay (s : Scene) (off : ℝ × ℝ) (px py : ℕ) : Ray :=
  let cameraRight := s.camera.ray.dir.cross s.camera.up
  let wFovRadians := s.camera.wFovDegrees * Real.pi / 180
  let hFovRadians := wFovRadians * (s.imgy : ℝ) / (s.imgx : ℝ)
  let centerX := (s.imgx : ℝ) / 2
  let centerY := (s.imgy : ℝ) / 2
  let x := off.1 + (px : ℝ)
  let y := off.2 + (py : ℝ)
  let radiansX := (x - centerX) / (s.imgx : ℝ) * wFovRadians
  let radiansY := (centerY - y) / (s.imgy : ℝ) * hFovRadians
  let pixelDir := (s.camera.ray.dir + radiansX • cameraRight + radiansY • s.camera.up).normalized
  ⟨s.camera.ray.origin, pixelDir⟩

/-- The per-pixel body of main.rs `Scene::render`: for each AA offset,
build the primary ray and shade it with a recursion budget of exactly 1;
average the samples with `1/count`. -/
noncomputable def Scene.renderPixel (s : Scene) (offsets : List (ℝ × ℝ)) (px py : ℕ) : Color :=
  (1 / (offsets.length : ℝ)) •
    offsets.foldl (fun c off => c + s.renderRay (s.pixelRay off px py) 1) BLACK

/-- The same pixel body with the reflection-free shading function in
place of the budget-1 `render_ray` call. -/
noncomputable def Scene.renderPixelNoReflect (s : Scene) (offsets : List (ℝ × ℝ))
    (px py : ℕ) : Color :=
  (1 / (offsets.length : ℝ)) •
    offsets.foldl (fun c off => c + s.renderRayNoReflect (s.pixelRay off px py)) BLACK

/-! ### Componentwise unfolding lemmas for the vector and color
operations. -/

@[simp] lemma Vec3.add_x (a b : Vec3) : (a + b).x = a.x + b.x := rfl

@[simp] lemma Vec3.add_y (a b : Vec3) : (a + b).y = a.y + b.y := rfl

@[simp] lemma Vec3.add_z (a b : Vec3) : (a + b).z = a.z + b.z := rfl

@[simp] lemma Vec3.sub_x (a b : Vec3) : (a - b).x = a.x - b.x := rfl

@[simp] lemma Vec3.sub_y (a b : Vec3) : (a - b).y = a.y - b.y := rfl

@[simp] lemma Vec3.sub_z (a b : Vec3) : (a - b).z = a.z - b.z := rfl

@[simp] lemma Vec3.smul_x (k : ℝ) (v : Vec3) : (k • v).x = k * v.x := rfl

@[simp] lemma Vec3.smul_y (k : ℝ) (v : Vec3) : (k • v).y = k * v.y := rfl

@[simp] lemma Vec3.smul_z (k : ℝ) (v : Vec3) : (k • v).z = k * v.z := rfl

@[simp] lemma Color.add_r (a b : Color) : (a + b).r = a.r + b.r := rfl

@[simp] lemma Color.add_g (a b : Color) : (a + b).g = a.g + b.g := rfl

@[simp] lemma Color.add_b (a b : Color) : (a + b).b = a.b + b.b := rfl

@[simp] lemma Color.smul_r (k : ℝ) (c : Color) : (k • c).r = k * c.r := rfl

@[simp] lemma Color.smul_g (k : ℝ) (c : Color) : (k • c).g = k * c.g := rfl

@[simp] lemma Color.smul_b (k : ℝ) (c : Color) : (k • c).b = k * c.b := rfl

@[simp] lemma Color.mul_r (a b : Color) : (a * b).r = a.r * b.r := rfl

@[simp] lemma Color.mul_g (a b : Color) : (a * b).g = a.g * b.g := rfl

@[simp] lemma Color.mul_b (a b : Color) : (a * b).b = a.b * b.b := rfl

/-! ### Claim C7: the attenuation factor. -/

/-- Claim C7, as stated, is false: at unblocked fraction 1, intensity 1
and distance 2 the attenuation factor of `Scene::render_ray` is 1
(`1 * 1 / 2 * 2`), not `1 * 1 * 2 = 2` as "times the distance" would
give. -/
theorem apparentBrightness_not_times_distance :
    apparentBrightness 1 1 2 = 1 ∧ (1 : ℝ) ≠ 1 * 1 * 2 := by
  constructor
  · unfold apparentBrightness
    norm_num
  · norm_num

/-- Claim C7 (amended): for every nonzero hit-to-light distance the
attenuation factor applied to a light's diffuse and specular terms is
the unblocked fraction times the intensity, full stop — the division by
the distance and the subsequent multiplication by the same distance
cancel, so there is no distance falloff at all (neither the claimed
multiplication by distance nor an inverse-square law). -/
theorem apparentBrightness_cancels (u intensity d : ℝ) (hd : d ≠ 0) :
    apparentBrightness u intensity d = u * intensity := by
  unfold apparentBrightness
  exact div_mul_cancel₀ _ hd

/-- Witness for `apparentBrightness_cancels` at distance 2. -/
theorem apparentBrightness_cancels_witness :
    (2 : ℝ) ≠ 0 ∧ apparentBrightness 1 1 2 = 1 * 1 :=
  ⟨by norm_num, apparentBrightness_cancels 1 1 2 (by norm_num)⟩

/-! ### Claim C6: the recursion budget. -/

/-- Claim C6: `Scene::render_ray` is total by construction (it is
defined by structural recursion on the budget); a zero budget returns
black immediately, and the number of nested reflection bounces performed
with budget `k` never exceeds `k`, for any scene geometry — including
mutually facing mirrors. -/
theorem renderRay_budget (s : Scene) (ray : Ray) (k : ℕ) :
    s.renderRay ray 0 = BLACK ∧ s.reflectionBounces ray k ≤ k := by
  refine ⟨rfl, ?_⟩
  induction k generalizing ray with
  | zero => exact Nat.le_refl 0
  | succ k ih =>
    rw [Scene.reflectionBounces]
    cases hci : closestIntersection s.objects ray with
    | none => exact Nat.zero_le _
    | some oi =>
      rcases oi with ⟨obj, i⟩
      by_cases hrefl : 0 < obj.material.reflectivity
      · simp only [if_pos hrefl]
        have := ih ⟨i.point + (1 / 1000 : ℝ) • i.surfaceNormal,
          (ray.dir.reflect i.surfaceNormal).normalized⟩
        omega
      · simp only [if_neg hrefl]
        exact Nat.zero_le _

/-! ### Claim C3: the light sample pattern. -/

/-- Claim C3, as stated, is false: with a positive radius and sample
count 2, `Scene::light_positions` produces 3 points, not 2 — the light
center is always pushed before the spiral samples. -/
theorem lightPositions_count_off_by_one :
    (Scene.lightPositions ⟨⟨0, 0, 0⟩, ⟨1, 0, 0⟩⟩ 1 2).length = 3 ∧ 3 ≠ 2 := by
  constructor
  · unfold Scene.lightPositions
    rw [if_pos (by norm_num : (0 : ℝ) < 1)]
    simp
  · decide

/-- What `Scene::light_positions` actually produces for radius `r > 0`
and sample count `n`: `n + 1` points — the light center first, then for
each `i < n` the point
`center + cos θ·(s·right) + sin θ·(s·up)` with `scaler = i/n`,
`θ = 2·scaler·2·π` (two spiral revolutions), `s = scaler·r`,
`right = normalize(dir × (0,0,1))` and `up` the fixed global `(0,0,1)`
(not re-orthogonalised against the center direction). -/
def LightPositionsSpec (centerRay : Ray) (lightRadius : ℝ) (count : ℕ) : Prop :=
  (Scene.lightPositions centerRay lightRadius count).length = count + 1 ∧
  (Scene.lightPositions centerRay lightRadius count).head? = some centerRay.origin ∧
  ∀ i : ℕ, i < count →
    (Scene.lightPositions centerRay lightRadius count)[i + 1]? =
      some (centerRay.origin
        + Real.cos (2 * ((i : ℝ) / (count : ℝ)) * 2 * Real.pi) •
            (((i : ℝ) / (count : ℝ) * lightRadius) •
              (centerRay.dir.cross ⟨0, 0, 1⟩).normalized)
        + Real.sin (2 * ((i : ℝ) / (count : ℝ)) * 2 * Real.pi) •
            (((i : ℝ) / (count : ℝ) * lightRadius) • (⟨0, 0, 1⟩ : Vec3)))

/-- Claim C3 (amended): for every light with radius `r > 0` and sample
count `n`, the sampler deterministically produces exactly `n + 1`
points: the light center, followed by the `n` spiral samples whose
`i`-th member follows the claimed `scaler`/`theta`/`sampleRadius`
formula — except that the spiral's `up` axis is the fixed global up
`(0,0,1)` itself (perpendicular to `right` but not, in general, to the
light's center direction). -/
theorem lightPositions_spec (centerRay : Ray) (lightRadius : ℝ) (count : ℕ)
    (h : 0 < lightRadius) : LightPositionsSpec centerRay lightRadius count := by
  unfold LightPositionsSpec Scene.lightPositions
  rw [if_pos h]
  refine ⟨by simp [Nat.add_comm], rfl, ?_⟩
  intro i hi
  rw [List.singleton_append, List.getElem?_cons_succ, List.getElem?_map,
    List.getElem?_range hi]
  rfl

/-- Witness for `lightPositions_spec` with radius 1 and one sample. -/
theorem lightPositions_spec_witness :
    (0 : ℝ) < 1 ∧ LightPositionsSpec ⟨⟨0, 0, 0⟩, ⟨1, 0, 0⟩⟩ 1 1 :=
  ⟨by norm_num, lightPositions_spec ⟨⟨0, 0, 0⟩, ⟨1, 0, 0⟩⟩ 1 1 (by norm_num)⟩

/-! ### Claim C1: budget 1 means no reflection contribution. -/

/-- With a recursion budget of exactly 1, the reflection recursion gets
budget 0, returns black, and the `reflected_color != BLACK` guard then
skips the reflection term, so `render_ray` coincides with the
reflection-free shading function. -/
lemma renderRay_one (s : Scene) (ray : Ray) :
    s.renderRay ray 1 = s.renderRayNoReflect ray := by
  rw [show (1 : ℕ) = 0 + 1 from rfl, Scene.renderRay]
  unfold Scene.renderRayNoReflect
  cases hci : closestIntersection s.objects ray with
  | none => rfl
  | some oi =>
    rcases oi with ⟨obj, i⟩
    simp only
    by_cases hrefl : 0 < obj.material.reflectivity
    · rw [if_pos hrefl]
      have hblack : s.renderRay
          ⟨i.point + (1 / 1000 : ℝ) • i.surfaceNormal,
            (ray.dir.reflect i.surfaceNormal).normalized⟩ 0 = BLACK := rfl
      rw [hblack, if_neg (by simp)]
    · rw [if_neg hrefl]

/-- Folds over the same list with pointwise-equal step functions are
equal. -/
lemma foldl_congr_fun {α β : Type} (l : List α) (f g : β → α → β) (b : β)
    (h : ∀ x a, f x a = g x a) : l.foldl f b = l.foldl g b := by
  induction l generalizing b with
  | nil => rfl
  | cons a l ih =>
    rw [List.foldl_cons, List.foldl_cons, h b a]
    exact ih _

/-- Claim C1: the pixel loop of `Scene::render` calls `render_ray` with
a recursion budget of exactly 1; since a budget-0 call returns black and
the black reflection color is discarded, every ray (and hence every
pixel of the supersampling loop) gets exactly the color of the shading
function with no reflection step at all. -/
theorem renderPixel_no_reflection (s : Scene) (ray : Ray) (offsets : List (ℝ × ℝ))
    (px py : ℕ) :
    s.renderRay ray 1 = s.renderRayNoReflect ray ∧
    s.renderPixel offsets px py = s.renderPixelNoReflect offsets px py := by
  refine ⟨renderRay_one s ray, ?_⟩
  unfold Scene.renderPixel Scene.renderPixelNoReflect
  congr 1
  exact foldl_congr_fun _ _ _ _ fun c off => by rw [renderRay_one]

/-! ### Claim C2: the shadow sample test. -/

/-- Claim C2 (amended): a light sample is counted as blocked exactly
when the scene's nearest hit along the shadow ray (cast from the
normal-offset point toward the sample) is at most as far as the sample —
distance less than **or equal to** the sample's distance (which is
measured from the unoffset hit point); the unblocked fraction is then
`1 − blocked/total` as claimed. -/
theorem sampleBlocked_iff (objects : List Object) (hitPoint slightlyOff samplePos : Vec3) :
    sampleBlocked objects hitPoint slightlyOff samplePos = true ↔
      ∃ o i, closestIntersection objects
          ⟨slightlyOff, (samplePos - hitPoint).normalized⟩ = some (o, i) ∧
        i.distance ≤ (samplePos - hitPoint).magnitude := by
  simp only [sampleBlocked]
  cases hci : closestIntersection objects ⟨slightlyOff, (samplePos - hitPoint).normalized⟩ with
  | none =>
    dsimp only
    simp only [Bool.false_eq_true, false_iff]
    rintro ⟨o, i, heq, -⟩
    exact Option.noConfusion heq
  | some oi =>
    rcases oi with ⟨o, i⟩
    dsimp only
    by_cases hgt : i.distance > (samplePos - hitPoint).magnitude
    · rw [if_pos hgt]
      simp only [Bool.false_eq_true, false_iff]
      rintro ⟨o', i', heq, hle⟩
      injection heq with h
      have h2 := congrArg Prod.snd h
      dsimp only at h2
      rw [h2] at hgt
      exact absurd hle (not_le.mpr hgt)
    · rw [if_neg hgt]
      exact iff_of_true rfl ⟨o, i, rfl, not_lt.mp hgt⟩

/-- A plane used by the shadow-test counterexample: it faces the shaded
point and sits exactly at the light sample's distance along the shadow
ray. -/
noncomputable def shadowDemoObjects : List Object :=
  [⟨⟨BLACK, BLACK, 0, 0⟩, Shape.plane ⟨0, 0, 2 + 1 / 1000⟩ ⟨0, 0, -1⟩⟩]

lemma shadowDemo_sub : (⟨0, 0, 2⟩ : Vec3) - ⟨0, 0, 0⟩ = ⟨0, 0, 2⟩ := by
  ext <;> simp

lemma shadowDemo_magnitude : (⟨0, 0, 2⟩ : Vec3).magnitude = 2 := by
  unfold Vec3.magnitude
  rw [show (0 : ℝ) * 0 + 0 * 0 + 2 * 2 = 2 ^ 2 by norm_num]
  exact Real.sqrt_sq (by norm_num)

lemma shadowDemo_normalized : (⟨0, 0, 2⟩ : Vec3).normalized = ⟨0, 0, 1⟩ := by
  unfold Vec3.normalized
  rw [shadowDemo_magnitude]
  ext <;> norm_num

/-- The intersection returned by the demo plane for the demo shadow
ray. -/
lemma shadowDemo_closest :
    closestIntersection shadowDemoObjects ⟨⟨0, 0, 1 / 1000⟩, ⟨0, 0, 1⟩⟩ =
      some (⟨⟨BLACK, BLACK, 0, 0⟩, Shape.plane ⟨0, 0, 2 + 1 / 1000⟩ ⟨0, 0, -1⟩⟩,
        ⟨2, ⟨0, 0, 2 + 1 / 1000⟩, ⟨0, 0, -1⟩⟩) := by
  have hfind : Shape.findIntersection
      (Shape.plane ⟨0, 0, 2 + 1 / 1000⟩ ⟨0, 0, -1⟩) ⟨⟨0, 0, 1 / 1000⟩, ⟨0, 0, 1⟩⟩ =
      some ⟨2, ⟨0, 0, 2 + 1 / 1000⟩, ⟨0, 0, -1⟩⟩ := by
    unfold Shape.findIntersection planeFindIntersection
    simp only [Vec3.dot, Vec3.sub_x, Vec3.sub_y, Vec3.sub_z]
    norm_num
    ext <;> norm_num
  unfold closestIntersection shadowDemoObjects
  rw [List.foldl_cons, List.foldl_nil]
  unfold closestStep
  rw [hfind]

/-- Claim C2, as stated, is false at an exact tie: with the demo plane
exactly at the sample's distance, the nearest hit along the shadow ray
is at distance 2 — not strictly closer than the sample (also at
distance 2) — yet the code counts the sample as blocked (`>` fails, so
the `else` arm increments `shaded`). -/
theorem sampleBlocked_at_equal_distance :
    sampleBlocked shadowDemoObjects ⟨0, 0, 0⟩ ⟨0, 0, 1 / 1000⟩ ⟨0, 0, 2⟩ = true ∧
    ¬ (∃ o i, closestIntersection shadowDemoObjects
          ⟨⟨0, 0, 1 / 1000⟩, ((⟨0, 0, 2⟩ : Vec3) - ⟨0, 0, 0⟩).normalized⟩ = some (o, i) ∧
        i.distance < ((⟨0, 0, 2⟩ : Vec3) - ⟨0, 0, 0⟩).magnitude) := by
  constructor
  · simp only [sampleBlocked, shadowDemo_sub, shadowDemo_normalized, shadowDemo_magnitude,
      shadowDemo_closest]
    norm_num
  · rintro ⟨o, i, heq, hlt⟩
    rw [shadowDemo_sub, shadowDemo_normalized, shadowDemo_magnitude] at *
    rw [shadowDemo_closest] at heq
    injection heq with h
    have h2 := congrArg Prod.snd h
    dsimp only at h2
    rw [← h2] at hlt
    norm_num at hlt

/-! ### Claim C9: per-light contributions are componentwise
non-negative. -/

/-- Componentwise non-negativity of a color. -/
def Color.Nonneg (c : Color) : Prop :=
  0 ≤ c.r ∧ 0 ≤ c.g ∧ 0 ≤ c.b

lemma fclamp_zero_one_nonneg (x : ℝ) : 0 ≤ fclamp x 0 1 := by
  unfold fclamp
  split_ifs with h1 h2
  · exact le_refl 0
  · norm_num
  · exact not_lt.mp h1

lemma Vec3.magnitude_nonneg (v : Vec3) : 0 ≤ v.magnitude :=
  Real.sqrt_nonneg _

lemma apparentBrightness_nonneg (u intensity d : ℝ) (hu : 0 ≤ u) (hI : 0 ≤ intensity)
    (hd : 0 ≤ d) : 0 ≤ apparentBrightness u intensity d := by
  unfold apparentBrightness
  exact mul_nonneg (div_nonneg (mul_nonneg hu hI) hd) hd

/-- The unblocked fraction `1 - shaded/total` is non-negative whenever
at most every sample is shaded. -/
lemma unblocked_nonneg (a b : ℕ) (h : a ≤ b) : 0 ≤ 1 - (a : ℝ) / (b : ℝ) := by
  rcases Nat.eq_zero_or_pos b with hb | hb
  · subst hb
    interval_cases a
    norm_num
  · have hbpos : (0 : ℝ) < b := by exact_mod_cast hb
    have : (a : ℝ) / b ≤ 1 := by
      rw [div_le_one hbpos]
      exact_mod_cast h
    linarith

/-- Claim C9: for every hit, material and light with non-negative light
color channels, non-negative intensity, and non-negative material
diffuse and specular colors, the per-light contribution added by
`Scene::render_ray` is componentwise non-negative — the diffuse and
specular scalars are clamped into `[0,1]` and every remaining factor is
a product or sum of non-negatives, so the source's `assert!`s on the
contribution hold. -/
theorem lightContribution_nonneg (objects : List Object) (material : Material)
    (i : Intersection) (rayDir slightlyOff : Vec3) (l : Light)
    (hlc : l.color.Nonneg) (hI : 0 ≤ l.intensity)
    (hdc : material.diffuseColor.Nonneg) (hsc : material.specularColor.Nonneg) :
    (lightContribution objects material i rayDir slightlyOff l).Nonneg := by
  simp only [lightContribution]
  split_ifs with h
  · exact ⟨le_refl 0, le_refl 0, le_refl 0⟩
  · have hb : 0 ≤ apparentBrightness
        (1 - ((Scene.lightPositions ⟨l.point, i.point - l.point⟩ l.radius
            lightPointsCount).filter fun p =>
              sampleBlocked objects i.point slightlyOff p).length /
          ((Scene.lightPositions ⟨l.point, i.point - l.point⟩ l.radius
            lightPointsCount).length : ℝ))
        l.intensity (i.point - l.point).magnitude :=
      apparentBrightness_nonneg _ _ _
        (unblocked_nonneg _ _ (List.length_filter_le _ _)) hI (Vec3.magnitude_nonneg _)
    have hdiff : 0 ≤ fclamp (i.surfaceNormal.dot ((-1 : ℝ) •
        (i.point - l.point).normalized)) 0 1 := fclamp_zero_one_nonneg _
    have hspec : 0 ≤ Real.rpow (fclamp (((-1 : ℝ) •
        ((i.point - l.point).normalized.reflect i.surfaceNormal)).dot rayDir) 0 1)
        material.shininess :=
      Real.rpow_nonneg (fclamp_zero_one_nonneg _) _
    refine ⟨?_, ?_, ?_⟩
    · exact mul_nonneg (mul_nonneg hb hlc.1)
        (add_nonneg (mul_nonneg hdiff hdc.1) (mul_nonneg hspec hsc.1))
    · exact mul_nonneg (mul_nonneg hb hlc.2.1)
        (add_nonneg (mul_nonneg hdiff hdc.2.1) (mul_nonneg hspec hsc.2.1))
    · exact mul_nonneg (mul_nonneg hb hlc.2.2)
        (add_nonneg (mul_nonneg hdiff hdc.2.2) (mul_nonneg hspec hsc.2.2))

/-- Witness for `lightContribution_nonneg` on a concrete white light and
white material. -/
theorem lightContribution_nonneg_witness :
    Color.Nonneg WHITE ∧ (0 : ℝ) ≤ 1 ∧
    (lightContribution [] ⟨WHITE, WHITE, 1, 0⟩ ⟨0, ⟨0, 0, 0⟩, ⟨0, 0, 1⟩⟩
      ⟨0, 0, 1⟩ ⟨0, 0, 0⟩ ⟨⟨0, 0, 2⟩, WHITE, 0, 1⟩).Nonneg := by
  have hw : Color.Nonneg WHITE := by
    refine ⟨?_, ?_, ?_⟩ <;> norm_num [WHITE]
  exact ⟨hw, by norm_num,
    lightContribution_nonneg [] ⟨WHITE, WHITE, 1, 0⟩ ⟨0, ⟨0, 0, 0⟩, ⟨0, 0, 1⟩⟩
      ⟨0, 0, 1⟩ ⟨0, 0, 0⟩ ⟨⟨0, 0, 2⟩, WHITE, 0, 1⟩ hw (by norm_num) hw hw⟩

/-! ### Claim C4: the nearest-hit query. -/

/-- Every root `sphereRoot` returns is non-negative: each accepting
branch of the source either checks the sign explicitly or returns a
value whose branch condition forces non-negativity. -/
lemma sphereRoot_nonneg (b c t : ℝ) (h : sphereRoot b c = some t) : 0 ≤ t := by
  simp only [sphereRoot] at h
  by_cases hd0 : b * b - 4 * 1 * c < 0
  · rw [if_pos hd0] at h
    exact Option.noConfusion h
  · rw [if_neg hd0] at h
    by_cases hdeq : b * b - 4 * 1 * c = 0
    · rw [if_pos hdeq] at h
      by_cases ht : 0 ≤ b / (-2 * 1)
      · rw [if_pos ht] at h
        injection h with h'
        rw [← h']
        exact ht
      · rw [if_neg ht] at h
        exact Option.noConfusion h
    · rw [if_neg hdeq] at h
      by_cases h0 : (Real.sqrt (b * b - 4 * 1 * c) - b) / (2 * 1) < 0
      · rw [if_pos h0] at h
        by_cases h1 : (Real.sqrt (b * b - 4 * 1 * c) + b) / (-2 * 1) < 0
        · rw [if_pos h1] at h
          exact Option.noConfusion h
        · rw [if_neg h1] at h
          injection h with h'
          rw [← h']
          exact not_lt.mp h1
      · rw [if_neg h0] at h
        by_cases h1 : (Real.sqrt (b * b - 4 * 1 * c) + b) / (-2 * 1) < 0
        · rw [if_pos h1] at h
          injection h with h'
          rw [← h']
          exact not_lt.mp h0
        · rw [if_neg h1] at h
          injection h with h'
          rw [← h']
          exact le_min (not_lt.mp h0) (not_lt.mp h1)

/-- Every intersection a shape reports lies at non-negative distance
along the ray. -/
lemma findIntersection_nonneg (sh : Shape) (r : Ray) (i : Intersection)
    (h : sh.findIntersection r = some i) : 0 ≤ i.distance := by
  cases sh with
  | plane point normal =>
    simp only [Shape.findIntersection, planeFindIntersection] at h
    by_cases h1 : r.dir.dot normal = 0
    · rw [if_pos h1] at h
      exact Option.noConfusion h
    · rw [if_neg h1] at h
      by_cases h2 : (point - r.origin).dot normal / r.dir.dot normal ≤ 0
      · rw [if_pos h2] at h
        exact Option.noConfusion h
      · rw [if_neg h2] at h
        injection h with h'
        rw [← h']
        exact (not_le.mp h2).le
  | sphere center radius =>
    simp only [Shape.findIntersection, sphereFindIntersection, Option.map_eq_some'] at h
    rcases h with ⟨t, hroot, hmk⟩
    rw [← hmk]
    exact sphereRoot_nonneg _ _ _ hroot

/-- `o` is the hit `closest_intersection` must return for `objects`:
it occurs in the list, its hit `i` has globally minimal distance among
all hits, and every object *before* `o` in the list either misses or
hits strictly farther away (first-encountered tie-breaking). -/
def IsClosest (objects : List Object) (r : Ray) (o : Object) (i : Intersection) : Prop :=
  ∃ l1 l2, objects = l1 ++ o :: l2 ∧ o.shape.findIntersection r = some i ∧
    (∀ o' ∈ l1, ∀ i', o'.shape.findIntersection r = some i' → i.distance < i'.distance) ∧
    (∀ o' ∈ objects, ∀ i', o'.shape.findIntersection r = some i' → i.distance ≤ i'.distance)

/-- Invariant of the linear scan after having processed the prefix
`pre`: either nothing so far hit, or the accumulator holds the closest
hit of `pre` with first-encountered tie-breaking. -/
def AccSpec (r : Ray) (pre : List Object) (acc : Option (Object × Intersection)) : Prop :=
  (acc = none ∧ ∀ o ∈ pre, o.shape.findIntersection r = none) ∨
  (∃ o i, acc = some (o, i) ∧ IsClosest pre r o i)

lemma accSpec_step (r : Ray) (pre : List Object) (acc : Option (Object × Intersection))
    (o : Object) (h : AccSpec r pre acc) : AccSpec r (pre ++ [o]) (closestStep r acc o) := by
  unfold closestStep
  cases hfind : o.shape.findIntersection r with
  | none =>
    rcases h with ⟨hacc, hall⟩ | ⟨ob, ib, hacc, l1, l2, hdec, hfound, hstrict, hmin⟩
    · subst hacc
      left
      refine ⟨rfl, fun o' ho' => ?_⟩
      rcases List.mem_append.mp ho' with hmem | hmem
      · exact hall o' hmem
      · rw [List.mem_singleton.mp hmem]
        exact hfind
    · subst hacc
      right
      refine ⟨ob, ib, rfl, l1, l2 ++ [o], by rw [hdec]; simp, hfound, hstrict, ?_⟩
      intro o' ho' i' hi'
      rcases List.mem_append.mp ho' with hmem | hmem
      · exact hmin o' hmem i' hi'
      · rw [List.mem_singleton.mp hmem] at hi'
        rw [hfind] at hi'
        exact Option.noConfusion hi'
  | some i =>
    rcases h with ⟨hacc, hall⟩ | ⟨ob, ib, hacc, l1, l2, hdec, hfound, hstrict, hmin⟩
    · subst hacc
      right
      refine ⟨o, i, rfl, pre, [], rfl, hfind, ?_, ?_⟩
      · intro o' ho' i' hi'
        rw [hall o' ho'] at hi'
        exact Option.noConfusion hi'
      · intro o' ho' i' hi'
        rcases List.mem_append.mp ho' with hmem | hmem
        · rw [hall o' hmem] at hi'
          exact Option.noConfusion hi'
        · rw [List.mem_singleton.mp hmem] at hi'
          rw [hfind] at hi'
          injection hi' with h'
          rw [h']
    · subst hacc
      dsimp only
      by_cases hlt : i.distance < ib.distance
      · rw [if_pos hlt]
        right
        refine ⟨o, i, rfl, pre, [], rfl, hfind, ?_, ?_⟩
        · intro o' ho' i' hi'
          exact lt_of_lt_of_le hlt (hmin o' ho' i' hi')
        · intro o' ho' i' hi'
          rcases List.mem_append.mp ho' with hmem | hmem
          · exact (lt_of_lt_of_le hlt (hmin o' hmem i' hi')).le
          · rw [List.mem_singleton.mp hmem] at hi'
            rw [hfind] at hi'
            injection hi' with h'
            rw [h']
      · rw [if_neg hlt]
        right
        refine ⟨ob, ib, rfl, l1, l2 ++ [o], by rw [hdec]; simp, hfound, hstrict, ?_⟩
        intro o' ho' i' hi'
        rcases List.mem_append.mp ho' with hmem | hmem
        · exact hmin o' hmem i' hi'
        · rw [List.mem_singleton.mp hmem] at hi'
          rw [hfind] at hi'
          injection hi' with h'
          rw [← h']
          exact not_lt.mp hlt

lemma accSpec_foldl (r : Ray) : ∀ (objs pre : List Object) (acc : Option (Object × Intersection)),
    AccSpec r pre acc → AccSpec r (pre ++ objs) (objs.foldl (closestStep r) acc) := by
  intro objs
  induction objs with
  | nil =>
    intro pre acc h
    simpa using h
  | cons o objs ih =>
    intro pre acc h
    rw [List.foldl_cons]
    have step := ih (pre ++ [o]) (closestStep r acc o) (accSpec_step r pre acc o h)
    rw [List.append_assoc, List.singleton_append] at step
    exact step

/-- Everything claim C4 asserts of `closest_intersection` on a given
object list and ray. -/
def ClosestIntersectionSpec (objects : List Object) (r : Ray) : Prop :=
  (closestIntersection objects r = none ↔
    ∀ o ∈ objects, o.shape.findIntersection r = none) ∧
  ∀ o i, closestIntersection objects r = some (o, i) →
    0 ≤ i.distance ∧ IsClosest objects r o i

/-- Claim C4: `Scene::closest_intersection` returns none exactly when no
object is hit; when it returns a hit, the distance is non-negative (all
shape intersections report non-negative distances, so the source's
`assert!` holds), the hit is the global minimum over all hit objects,
and ties are broken in favour of the first-encountered object
(`Iterator::min_by` keeps the earlier element on ties, and the fold only
replaces the incumbent on strictly smaller distance). -/
theorem closestIntersection_spec (objects : List Object) (r : Ray) :
    ClosestIntersectionSpec objects r := by
  have hacc : AccSpec r ([] ++ objects) (closestIntersection objects r) := by
    unfold closestIntersection
    exact accSpec_foldl r objects [] none (Or.inl ⟨rfl, by simp⟩)
  rw [List.nil_append] at hacc
  constructor
  · constructor
    · intro hnone
      rcases hacc with ⟨-, hall⟩ | ⟨o, i, hsome, -⟩
      · exact hall
      · rw [hnone] at hsome
        exact Option.noConfusion hsome
    · intro hall
      rcases hacc with ⟨hnone, -⟩ | ⟨o, i, hsome, l1, l2, hdec, hfound, -, -⟩
      · exact hnone
      · have hmem : o ∈ objects := by
          rw [hdec]
          simp
        rw [hall o hmem] at hfound
        exact Option.noConfusion hfound
  · intro o i hsome2
    rcases hacc with ⟨hnone, -⟩ | ⟨o', i', hsome, hic⟩
    · rw [hsome2] at hnone
      exact Option.noConfusion hnone
    · rw [hsome2] at hsome
      injection hsome with h
      have ho := congrArg Prod.fst h
      have hi := congrArg Prod.snd h
      dsimp only at ho hi
      rw [← ho, ← hi] at hic
      rcases hic with ⟨l1, l2, hdec, hfound, hstrict, hmin⟩
      exact ⟨findIntersection_nonneg _ _ _ hfound, l1, l2, hdec, hfound, hstrict, hmin⟩

/-- Witness for `closestIntersection_spec` on the empty scene. -/
theorem closestIntersection_spec_witness :
    ClosestIntersectionSpec [] ⟨⟨0, 0, 0⟩, ⟨0, 0, 1⟩⟩ :=
  closestIntersection_spec [] ⟨⟨0, 0, 0⟩, ⟨0, 0, 1⟩⟩

/-! ### Claim C5: the sphere intersection. -/

/-- `sphereRoot b c` returns the least non-negative root of
`t² + b·t + c` (the sphere quadratic with `a = 1`), and `none` exactly
when no non-negative root exists. -/
lemma sphereRoot_spec (b c : ℝ) :
    (∀ t, sphereRoot b c = some t →
      0 ≤ t ∧ t ^ 2 + b * t + c = 0 ∧ ∀ u, 0 ≤ u → u ^ 2 + b * u + c = 0 → t ≤ u) ∧
    (sphereRoot b c = none → ∀ u, 0 ≤ u → u ^ 2 + b * u + c ≠ 0) := by
  by_cases hd0 : b * b - 4 * 1 * c < 0
  · have hval : sphereRoot b c = none := by
      simp only [sphereRoot]
      rw [if_pos hd0]
    have hno : ∀ u : ℝ, u ^ 2 + b * u + c ≠ 0 := by
      intro u hu
      nlinarith [sq_nonneg (2 * u + b)]
    constructor
    · intro t h
      rw [hval] at h
      exact Option.noConfusion h
    · intro _ u _ hu
      exact hno u hu
  · by_cases hdeq : b * b - 4 * 1 * c = 0
    · have huniq : ∀ u : ℝ, u ^ 2 + b * u + c = 0 → u = b / (-2 * 1) := by
        intro u hu
        have hsq : (2 * u + b) ^ 2 = 0 := by nlinarith
        have hz : 2 * u + b = 0 := by
          have := sq_eq_zero_iff.mp hsq
          exact this
        field_simp
        linarith
      have hroot : (b / (-2 * 1)) ^ 2 + b * (b / (-2 * 1)) + c = 0 := by
        field_simp
        nlinarith
      by_cases ht : 0 ≤ b / (-2 * 1)
      · have hval : sphereRoot b c = some (b / (-2 * 1)) := by
          simp only [sphereRoot]
          rw [if_neg hd0, if_pos hdeq, if_pos ht]
        constructor
        · intro t h
          rw [hval] at h
          injection h with h'
          rw [← h']
          exact ⟨ht, hroot, fun u _ hu => (huniq u hu) ▸ le_refl _⟩
        · intro h
          rw [hval] at h
          exact Option.noConfusion h
      · have hval : sphereRoot b c = none := by
          simp only [sphereRoot]
          rw [if_neg hd0, if_pos hdeq, if_neg ht]
        constructor
        · intro t h
          rw [hval] at h
          exact Option.noConfusion h
        · intro _ u hu0 hu
          exact ht ((huniq u hu) ▸ hu0)
    · have hd : 0 < b * b - 4 * 1 * c :=
        lt_of_le_of_ne (not_lt.mp hd0) (Ne.symm hdeq)
      have hs2 : Real.sqrt (b * b - 4 * 1 * c) ^ 2 = b * b - 4 * 1 * c :=
        Real.sq_sqrt hd.le
      have hkey : ∀ u : ℝ, u ^ 2 + b * u + c =
          (u - (Real.sqrt (b * b - 4 * 1 * c) - b) / (2 * 1)) *
          (u - (Real.sqrt (b * b - 4 * 1 * c) + b) / (-2 * 1)) := by
        intro u
        linear_combination hs2 / 4
      have hiff : ∀ u : ℝ, u ^ 2 + b * u + c = 0 ↔
          (u = (Real.sqrt (b * b - 4 * 1 * c) - b) / (2 * 1) ∨
           u = (Real.sqrt (b * b - 4 * 1 * c) + b) / (-2 * 1)) := by
        intro u
        rw [hkey u, mul_eq_zero, sub_eq_zero, sub_eq_zero]
      have ht0root : ((Real.sqrt (b * b - 4 * 1 * c) - b) / (2 * 1)) ^ 2 +
          b * ((Real.sqrt (b * b - 4 * 1 * c) - b) / (2 * 1)) + c = 0 :=
        (hiff _).mpr (Or.inl rfl)
      have ht1root : ((Real.sqrt (b * b - 4 * 1 * c) + b) / (-2 * 1)) ^ 2 +
          b * ((Real.sqrt (b * b - 4 * 1 * c) + b) / (-2 * 1)) + c = 0 :=
        (hiff _).mpr (Or.inr rfl)
      by_cases h0 : (Real.sqrt (b * b - 4 * 1 * c) - b) / (2 * 1) < 0
      · by_cases h1 : (Real.sqrt (b * b - 4 * 1 * c) + b) / (-2 * 1) < 0
        · have hval : sphereRoot b c = none := by
            simp only [sphereRoot]
            rw [if_neg hd0, if_neg hdeq, if_pos h0, if_pos h1]
          constructor
          · intro t h
            rw [hval] at h
            exact Option.noConfusion h
          · intro _ u hu0 hu
            rcases (hiff u).mp hu with h' | h'
            · rw [h'] at hu0
              exact absurd hu0 (not_le.mpr h0)
            · rw [h'] at hu0
              exact absurd hu0 (not_le.mpr h1)
        · have hval : sphereRoot b c =
              some ((Real.sqrt (b * b - 4 * 1 * c) + b) / (-2 * 1)) := by
            simp only [sphereRoot]
            rw [if_neg hd0, if_neg hdeq, if_pos h0, if_neg h1]
          constructor
          · intro t h
            rw [hval] at h
            injection h with h'
            rw [← h']
            refine ⟨not_lt.mp h1, ht1root, fun u hu0 hu => ?_⟩
            rcases (hiff u).mp hu with h' | h'
            · rw [h'] at hu0
              exact absurd hu0 (not_le.mpr h0)
            · rw [h']
          · intro h
            rw [hval] at h
            exact Option.noConfusion h
      · by_cases h1 : (Real.sqrt (b * b - 4 * 1 * c) + b) / (-2 * 1) < 0
        · have hval : sphereRoot b c =
              some ((Real.sqrt (b * b - 4 * 1 * c) - b) / (2 * 1)) := by
            simp only [sphereRoot]
            rw [if_neg hd0, if_neg hdeq, if_neg h0, if_pos h1]
          constructor
          · intro t h
            rw [hval] at h
            injection h with h'
            rw [← h']
            refine ⟨not_lt.mp h0, ht0root, fun u hu0 hu => ?_⟩
            rcases (hiff u).mp hu with h' | h'
            · rw [h']
            · rw [h'] at hu0
              exact absurd hu0 (not_le.mpr h1)
          · intro h
            rw [hval] at h
            exact Option.noConfusion h
        · have hval : sphereRoot b c =
              some (min ((Real.sqrt (b * b - 4 * 1 * c) - b) / (2 * 1))
                ((Real.sqrt (b * b - 4 * 1 * c) + b) / (-2 * 1))) := by
            simp only [sphereRoot]
            rw [if_neg hd0, if_neg hdeq, if_neg h0, if_neg h1]
          constructor
          · intro t h
            rw [hval] at h
            injection h with h'
            rw [← h']
            refine ⟨le_min (not_lt.mp h0) (not_lt.mp h1), ?_, fun u hu0 hu => ?_⟩
            · rcases min_choice ((Real.sqrt (b * b - 4 * 1 * c) - b) / (2 * 1))
                ((Real.sqrt (b * b - 4 * 1 * c) + b) / (-2 * 1)) with hmin | hmin
              · rw [hmin]
                exact ht0root
              · rw [hmin]
                exact ht1root
            · rcases (hiff u).mp hu with h' | h'
              · rw [h']
                exact min_le_left _ _
              · rw [h']
                exact min_le_right _ _
          · intro h
            rw [hval] at h
            exact Option.noConfusion h

lemma Vec3.magnitude_eq_sqrt_dot (v : Vec3) : v.magnitude = Real.sqrt (v.dot v) := rfl

lemma Vec3.dot_self_nonneg (v : Vec3) : 0 ≤ v.dot v := by
  unfold Vec3.dot
  nlinarith [sq_nonneg v.x, sq_nonneg v.y, sq_nonneg v.z]

/-- A unit-magnitude direction has unit self-dot-product. -/
lemma dot_self_of_magnitude_one (v : Vec3) (h : v.magnitude = 1) : v.dot v = 1 := by
  have h2 : v.magnitude ^ 2 = v.dot v := by
    rw [Vec3.magnitude_eq_sqrt_dot]
    exact Real.sq_sqrt (Vec3.dot_self_nonneg v)
  rw [h] at h2
  simpa using h2.symm

/-- Expanding the sphere quadratic: the squared distance from the sphere
center to the ray point at parameter `t`. -/
lemma sphere_quadratic (O D C : Vec3) (t : ℝ) :
    (O + t • D - C).dot (O + t • D - C)
      = (D.dot D) * t ^ 2 + (2 * D.dot (O - C)) * t + (O - C).dot (O - C) := by
  simp only [Vec3.dot, Vec3.add_x, Vec3.add_y, Vec3.add_z, Vec3.sub_x, Vec3.sub_y,
    Vec3.sub_z, Vec3.smul_x, Vec3.smul_y, Vec3.smul_z]
  ring

lemma Vec3.normalized_eq_smul (v : Vec3) : v.normalized = v.magnitude⁻¹ • v := by
  unfold Vec3.normalized
  ext <;> dsimp <;> ring

lemma Vec3.magnitude_smul (k : ℝ) (v : Vec3) :
    (k • v).magnitude = |k| * v.magnitude := by
  unfold Vec3.magnitude
  simp only [Vec3.smul_x, Vec3.smul_y, Vec3.smul_z]
  rw [show k * v.x * (k * v.x) + k * v.y * (k * v.y) + k * v.z * (k * v.z)
      = k ^ 2 * (v.x * v.x + v.y * v.y + v.z * v.z) by ring]
  rw [Real.sqrt_mul (sq_nonneg k), Real.sqrt_sq_eq_abs]

/-- Normalizing a vector of positive magnitude yields a unit vector. -/
lemma magnitude_normalized_eq_one (v : Vec3) (h : 0 < v.magnitude) :
    v.normalized.magnitude = 1 := by
  rw [Vec3.normalized_eq_smul, Vec3.magnitude_smul, abs_inv, abs_of_pos h]
  exact inv_mul_cancel₀ (ne_of_gt h)

/-- The normalized vector is parallel to the original: their cross
product vanishes. -/
lemma cross_normalized_self (v : Vec3) : v.normalized.cross v = ⟨0, 0, 0⟩ := by
  rw [Vec3.normalized_eq_smul]
  unfold Vec3.cross
  ext <;> dsimp <;> ring

/-- Everything claim C5 asserts of the sphere intersection for one
sphere and one ray: any returned hit lies at the least non-negative
parameter at which the ray point is at distance `R` from the center,
with hit point `O + D·t` and normal `normalize(hit − C)` — exactly unit
length (so within the claimed 1e-6) and parallel to `hit − C`; `none` is
returned exactly when no non-negative parameter puts the ray on the
sphere. -/
def SphereIntersectionSpec (center : Vec3) (radius : ℝ) (r : Ray) : Prop :=
  (∀ i, sphereFindIntersection center radius r = some i →
    0 ≤ i.distance ∧
    i.point = r.origin + i.distance • r.dir ∧
    (i.point - center).dot (i.point - center) = radius * radius ∧
    (∀ t : ℝ, 0 ≤ t →
      (r.origin + t • r.dir - center).dot (r.origin + t • r.dir - center) = radius * radius →
      i.distance ≤ t) ∧
    i.surfaceNormal = (i.point - center).normalized ∧
    |i.surfaceNormal.magnitude - 1| ≤ 1 / 1000000 ∧
    i.surfaceNormal.cross (i.point - center) = ⟨0, 0, 0⟩) ∧
  (sphereFindIntersection center radius r = none →
    ∀ t : ℝ, 0 ≤ t →
      (r.origin + t • r.dir - center).dot (r.origin + t • r.dir - center) ≠ radius * radius)

/-- Claim C5: correctness of sphere.rs `find_intersection` for every
sphere of positive radius and every unit-direction ray. -/
theorem sphereFindIntersection_spec (center : Vec3) (radius : ℝ) (r : Ray)
    (hR : 0 < radius) (hD : r.dir.magnitude = 1) :
    SphereIntersectionSpec center radius r := by
  have hDD : r.dir.dot r.dir = 1 := dot_self_of_magnitude_one _ hD
  have hiffQ : ∀ t : ℝ,
      ((r.origin + t • r.dir - center).dot (r.origin + t • r.dir - center)
          = radius * radius) ↔
      t ^ 2 + (2 * r.dir.dot (r.origin - center)) * t +
        ((r.origin - center).dot (r.origin - center) - radius * radius) = 0 := by
    intro t
    rw [sphere_quadratic, hDD]
    constructor <;> intro h <;> linarith
  have hroot := sphereRoot_spec (2 * r.dir.dot (r.origin - center))
    ((r.origin - center).dot (r.origin - center) - radius * radius)
  unfold SphereIntersectionSpec
  constructor
  · intro i hi
    simp only [sphereFindIntersection, Option.map_eq_some'] at hi
    rcases hi with ⟨t, hrt, hmk⟩
    have hfacts := hroot.1 t hrt
    subst hmk
    have honsp : (r.origin + t • r.dir - center).dot (r.origin + t • r.dir - center)
        = radius * radius := (hiffQ t).mpr hfacts.2.1
    have hmPC : (r.origin + t • r.dir - center).magnitude = radius := by
      rw [Vec3.magnitude_eq_sqrt_dot, honsp, show radius * radius = radius ^ 2 by ring]
      exact Real.sqrt_sq hR.le
    have hpos : 0 < (r.origin + t • r.dir - center).magnitude := by
      rw [hmPC]
      exact hR
    refine ⟨hfacts.1, rfl, honsp, ?_, rfl, ?_, ?_⟩
    · intro u hu0 hons
      exact hfacts.2.2 u hu0 ((hiffQ u).mp hons)
    · rw [magnitude_normalized_eq_one _ hpos]
      norm_num
    · exact cross_normalized_self _
  · intro hnone t ht hons
    simp only [sphereFindIntersection, Option.map_eq_none'] at hnone
    exact hroot.2 hnone t ht ((hiffQ t).mp hons)

/-- Witness for `sphereFindIntersection_spec`: the unit sphere at the
origin and a unit-direction ray from `(0,0,-2)` straight through it. -/
theorem sphereFindIntersection_spec_witness :
    (0 : ℝ) < 1 ∧ (⟨⟨0, 0, -2⟩, ⟨0, 0, 1⟩⟩ : Ray).dir.magnitude = 1 ∧
    SphereIntersectionSpec ⟨0, 0, 0⟩ 1 ⟨⟨0, 0, -2⟩, ⟨0, 0, 1⟩⟩ := by
  have hmag : (⟨⟨0, 0, -2⟩, ⟨0, 0, 1⟩⟩ : Ray).dir.magnitude = 1 := by
    unfold Vec3.magnitude
    norm_num
  exact ⟨by norm_num, hmag,
    sphereFindIntersection_spec ⟨0, 0, 0⟩ 1 ⟨⟨0, 0, -2⟩, ⟨0, 0, 1⟩⟩ (by norm_num) hmag⟩

end JRay
